import Mathlib

/-!
Shallow embedding of the Orbit import pod (`OrbitImportPod`, `OrbitUtils`) of the
dendron repository, together with theorems checking the natural-language
specification of its import-and-reconciliation pipeline.

Modelling conventions:
* JavaScript values that may be a string, `null` or `undefined` are embedded as
  the inductive `SVal`; incoming member attributes typed `string | null` are
  embedded as `Option String` with `none` standing for `null`.
* The engine store is embedded as a newest-first write log (`Engine`); `writeNote`
  prepends, `lookupNote` finds the newest note with a given name.
* `NoteProps.custom` is restricted to the parts the pipeline reads and writes,
  namely the `social` sub-bag; the other custom keys (frontmatter, the `orbit`
  sub-bag) are never read back by the pipeline and are elided.
* The filename sanitizer `DNodeUtils.cleanFname` and the `stringifyError` helper
  live outside the sources under study; they are abstracted (a function
  parameter, resp. the identity on an already-stringified cause).
-/

namespace Orbit

/-- JS value of a social field as stored in a note: `undefined`, `null`, or a string. -/
inductive SVal where
  | undef : SVal
  | null : SVal
  | str : String → SVal
deriving DecidableEq, Repr, Inhabited

/-- Lift an incoming `string | null` attribute to a JS value (`none` is `null`). -/
def svalOfOpt : Option String → SVal
  | none => SVal.null
  | some s => SVal.str s

/-- The closed set of social keys, mirroring `enum SocialKeys` in the source. -/
inductive SocialKey where
  | github : SocialKey
  | discord : SocialKey
  | linkedin : SocialKey
  | twitter : SocialKey
  | email : SocialKey
deriving DecidableEq, Repr, Inhabited

/-- `Object.values(SocialKeys)`: the fixed enumeration order of the social keys. -/
def socialKeys : List SocialKey :=
  [SocialKey.github, SocialKey.discord, SocialKey.linkedin, SocialKey.twitter,
   SocialKey.email]

/-- The `social` sub-bag of a note, one JS value per social key. -/
structure SocialBag where
  github : SVal
  discord : SVal
  linkedin : SVal
  twitter : SVal
  email : SVal
deriving DecidableEq, Repr, Inhabited

/-- Read a social field. -/
def SocialBag.get (b : SocialBag) : SocialKey → SVal
  | SocialKey.github => b.github
  | SocialKey.discord => b.discord
  | SocialKey.linkedin => b.linkedin
  | SocialKey.twitter => b.twitter
  | SocialKey.email => b.email

/-- Write a social field. -/
def SocialBag.set (b : SocialBag) (k : SocialKey) (v : SVal) : SocialBag :=
  match k with
  | SocialKey.github => { b with github := v }
  | SocialKey.discord => { b with discord := v }
  | SocialKey.linkedin => { b with linkedin := v }
  | SocialKey.twitter => { b with twitter := v }
  | SocialKey.email => { b with email := v }

/-- The `{}` bag created by `note.custom.social = {}`: every key is undefined. -/
def emptyBag : SocialBag :=
  { github := SVal.undef, discord := SVal.undef, linkedin := SVal.undef,
    twitter := SVal.undef, email := SVal.undef }

/-- The attributes of an `OrbitMemberData` record the pipeline reads
(the external identifier, display name, and the five social attributes;
the remaining attributes only flow into the elided `orbit` sub-bag). -/
structure OrbitMemberData where
  id : String
  name : Option String
  github : String
  discord : Option String
  linkedin : Option String
  twitter : Option String
  email : Option String
deriving DecidableEq, Repr, Inhabited

/-- `member.attributes[key]` for a social key (`github` is typed as a plain string). -/
def incomingAttr (m : OrbitMemberData) : SocialKey → Option String
  | SocialKey.github => some m.github
  | SocialKey.discord => m.discord
  | SocialKey.linkedin => m.linkedin
  | SocialKey.twitter => m.twitter
  | SocialKey.email => m.email

/-- `OrbitUtils.getSocialAttributes`: copy each social attribute into a bag
(all five keys present, `null` kept as `null`). -/
def getSocialAttributes (m : OrbitMemberData) : SocialBag :=
  { github := svalOfOpt (incomingAttr m SocialKey.github),
    discord := svalOfOpt (incomingAttr m SocialKey.discord),
    linkedin := svalOfOpt (incomingAttr m SocialKey.linkedin),
    twitter := svalOfOpt (incomingAttr m SocialKey.twitter),
    email := svalOfOpt (incomingAttr m SocialKey.email) }

/-- The value of `email.split("@")[0]`: the prefix of the string before its
first at sign (the whole string when it has none). -/
def beforeAt (e : String) : String :=
  String.mk (e.data.takeWhile (fun c => c ≠ '@'))

/-- `OrbitUtils.getNameFromEmail`: local part of the email when the email is
truthy, otherwise `undefined`. -/
def getNameFromEmail (email : Option String) : Option String :=
  match email with
  | some e => if e = "" then none else some (beforeAt e)
  | none => none

/-- JS truthiness of a `string | null | undefined` value. -/
def truthy : Option String → Bool
  | none => false
  | some s => s ≠ ""

/-- Value of the chain `a1 || a2 || ... || an || dflt`: the first truthy operand,
otherwise the final operand. -/
def firstTruthy (dflt : String) : List (Option String) → String
  | [] => dflt
  | x :: rest => if truthy x then x.getD "" else firstTruthy dflt rest

/-- `OrbitUtils.cleanName`: `name || github || discord || twitter ||
getNameFromEmail(email) || orbitId`, passed through the filename sanitizer
(`DNodeUtils.cleanFname`, abstracted as the parameter `san`). -/
def cleanName (san : String → String) (m : OrbitMemberData) : String :=
  san (firstTruthy m.id
    [m.name, some m.github, m.discord, m.twitter, getNameFromEmail m.email])

/-- The custom metadata bag of a note, restricted to the `social` sub-bag
(`none` when the `social` key is absent). -/
structure Custom where
  social : Option SocialBag
deriving DecidableEq, Repr, Inhabited

/-- A note: name plus optional custom metadata (`NoteProps.custom` is optional). -/
structure Note where
  fname : String
  custom : Option Custom
deriving DecidableEq, Repr, Inhabited

/-- A conflict queue entry, mirroring the `Conflict` type. -/
structure Conflict where
  conflictNote : Note
  conflictEntry : Note
  conflictData : List SocialKey
deriving DecidableEq, Repr, Inhabited

/-- `OrbitImportPod.getConflictedData`: empty when the custom bag or its social
sub-bag is absent; otherwise the social keys, in enumeration order, whose stored
value is neither null nor undefined and differs (JS strict inequality) from the
incoming value. -/
def getConflictedData (note : Note) (m : OrbitMemberData) : List SocialKey :=
  match note.custom with
  | none => []
  | some c =>
    match c.social with
    | none => []
    | some bag =>
      socialKeys.filter (fun k =>
        let v := bag.get k
        (!(v = SVal.null) && !(v = SVal.undef)) &&
          !(svalOfOpt (incomingAttr m k) = v))

/-- One step of the `customKeys.forEach` loop in `updateNoteData`: adopt the
incoming value when the stored value is strict-equal to `null` and the incoming
value is not `null`, setting the `shouldUpdate` flag. -/
def updateStep (m : OrbitMemberData) (acc : SocialBag × Bool) (k : SocialKey) :
    SocialBag × Bool :=
  match acc.1.get k, incomingAttr m k with
  | SVal.null, some s => (acc.1.set k (SVal.str s), true)
  | _, _ => acc

/-- `OrbitImportPod.updateNoteData` up to the engine write: `none` models the
TypeError raised when `note.custom` is undefined; otherwise the note with the
updated social bag together with the `shouldUpdate` flag (the engine write is
issued by the caller model iff the flag is set). -/
def updateNoteData (note : Note) (m : OrbitMemberData) : Option (Note × Bool) :=
  match note.custom with
  | none => none
  | some c =>
    let bag := c.social.getD emptyBag
    let r := socialKeys.foldl (updateStep m) (bag, false)
    some ({ note with custom := some { c with social := some r.1 } }, r.2)

/-- The engine store, embedded as a newest-first write log. -/
abbrev Engine := List Note

/-- `engine.writeNote(note, { updateExisting: true })`. -/
def writeNote (n : Note) (e : Engine) : Engine := n :: e

/-- Look up the newest note carrying a given name. -/
def lookupNote (e : Engine) (fname : String) : Option Note :=
  List.find? (fun n => n.fname = fname) e

/-- `engine.bulkAddNotes({ notes })`. -/
def bulkAddNotes (notes : List Note) (e : Engine) : Engine := notes ++ e

/-- The pod configuration fields the reconciliation logic reads. -/
structure OrbitConfig where
  destName : Option String
  overwriteAll : Bool
deriving DecidableEq, Repr, Inhabited

/-- `MergeConflictOptions`: the fixed resolution policy menu. -/
inductive MergeOpt where
  | overwriteLocal : MergeOpt
  | skip : MergeOpt
  | skipAll : MergeOpt
deriving DecidableEq, Repr, Inhabited

/-- Derived document name `people.<noteName>`. -/
def peopleFname (noteName : String) : String := "people." ++ noteName

/-- Quarantine name `people.orbit.duplicate.<date>.<noteName>`. -/
def duplicateFname (today noteName : String) : String :=
  "people.orbit.duplicate." ++ today ++ "." ++ noteName

/-- The name the planner looks an existing note up under: in fast mode the
truthy `destName` override (else the derived name); in normal mode always the
derived `people.<noteName>`. -/
def lookupFname (cfg : OrbitConfig) (fastMode : Bool) (noteName : String) : String :=
  let fname := if truthy cfg.destName then cfg.destName.getD "" else peopleFname noteName
  if fastMode then fname else peopleFname noteName

/-- The custom bag `{...config.frontmatter, ...orbitData}` of a freshly created
note, restricted to its social sub-bag (spread last, so it is the incoming bag). -/
def newNote (fname : String) (m : OrbitMemberData) : Note :=
  { fname := fname, custom := some { social := some (getSocialAttributes m) } }

/-- One bucket decision of `membersToNotes` for one member. -/
inductive PlanItem where
  | create : Note → PlanItem
  | update : Note → OrbitMemberData → PlanItem
  | conflict : Conflict → PlanItem
deriving DecidableEq, Repr, Inhabited

/-- The per-member body of the `members.map` loop of `membersToNotes`: look the
member up under `lookupFname`, then route it to the create, update or conflict
bucket. The conflict entry's custom bag is `{...frontmatter, ...note.custom,
...orbitData}`, whose social sub-bag is the incoming bag (spread last). -/
def planMember (san : String → String) (today : String) (cfg : OrbitConfig)
    (fastMode : Bool) (engine : Engine) (m : OrbitMemberData) : PlanItem :=
  let noteName := cleanName san m
  match lookupNote engine (lookupFname cfg fastMode noteName) with
  | some note =>
    let conflictData := getConflictedData note m
    if conflictData.length > 0 then
      PlanItem.conflict
        { conflictNote := note,
          conflictEntry := newNote (duplicateFname today noteName) m,
          conflictData := conflictData }
    else
      PlanItem.update note m
  | none => PlanItem.create (newNote (peopleFname noteName) m)

/-- The three buckets `membersToNotes` accumulates. -/
structure PlanBuckets where
  create : List Note
  conflicts : List Conflict
  notesToUpdate : List (Note × OrbitMemberData)
deriving DecidableEq, Repr, Inhabited

/-- The bucket-building part of `membersToNotes`: every lookup runs against the
pre-run engine state, and each bucket keeps member order. -/
def planAll (san : String → String) (today : String) (cfg : OrbitConfig)
    (fastMode : Bool) (engine : Engine) (members : List OrbitMemberData) :
    PlanBuckets :=
  let items := members.map (planMember san today cfg fastMode engine)
  { create := items.filterMap (fun i =>
      match i with | PlanItem.create n => some n | _ => none),
    conflicts := items.filterMap (fun i =>
      match i with | PlanItem.conflict c => some c | _ => none),
    notesToUpdate := items.filterMap (fun i =>
      match i with | PlanItem.update n m => some (n, m) | _ => none) }

/-- The update phase of `membersToNotes`: run `updateNoteData` on each bucket
entry, writing the note iff its `shouldUpdate` flag is set; `none` models the
TypeError of a note without a custom bag; also counts the issued write commits. -/
def applyUpdates (engine : Engine) :
    List (Note × OrbitMemberData) → Option (Engine × Nat)
  | [] => some (engine, 0)
  | (n, m) :: rest =>
    match updateNoteData n m with
    | none => none
    | some (n', b) =>
      let engine' := if b then writeNote n' engine else engine
      match applyUpdates engine' rest with
      | none => none
      | some (e, cnt) => some (e, cnt + (if b then 1 else 0))

/-- `OrbitImportPod.onConflict`, with the engine threaded explicitly and the
list of visited queue indices added as instrumentation (third component).
In the `SKIP_ALL` case the source sets `index = conflicts.length`, which makes
the continue-guard `index < conflicts.length - 1` false, so that branch returns
directly with no engine write. -/
def onConflict (conflicts : List Conflict) (overwriteAll : Bool)
    (decide : Nat → Option MergeOpt) (engine : Engine) (index : Nat)
    (resolved : List Note) : Engine × List Note × List Nat :=
  let conflict := conflicts.getD index default
  let resp := if overwriteAll then some MergeOpt.overwriteLocal else decide index
  match resp with
  | some MergeOpt.overwriteLocal =>
    let engine' :=
      writeNote { conflict.conflictEntry with fname := conflict.conflictNote.fname }
        engine
    if _h : index < conflicts.length - 1 then
      let r := onConflict conflicts overwriteAll decide engine' (index + 1) resolved
      (r.1, r.2.1, index :: r.2.2)
    else (engine', resolved, [index])
  | some MergeOpt.skipAll => (engine, resolved, [index])
  | _ =>
    if _h : index < conflicts.length - 1 then
      let r := onConflict conflicts overwriteAll decide engine (index + 1) resolved
      (r.1, r.2.1, index :: r.2.2)
    else (engine, resolved, [index])
termination_by conflicts.length - index

/-- Result of one pipeline run (`plant`), with the conflict-queue length and
the number of non-conflicting update commits recorded as instrumentation. -/
structure RunResult where
  engine : Engine
  importedNotes : List Note
  conflictCount : Nat
  updateCommits : Nat
deriving DecidableEq, Repr, Inhabited

/-- `OrbitImportPod.plant` from the planning step on: plan all members against
the initial engine state, apply the non-conflicting updates, bulk-add the
created notes, then drain the conflict queue (seeded with the original
conflicted notes) when it is non-empty. -/
def plant (san : String → String) (today : String) (cfg : OrbitConfig)
    (fastMode : Bool) (decide : Nat → Option MergeOpt) (engine0 : Engine)
    (members : List OrbitMemberData) : Option RunResult :=
  let plan := planAll san today cfg fastMode engine0 members
  match applyUpdates engine0 plan.notesToUpdate with
  | none => none
  | some (e1, commits) =>
    let e2 := bulkAddNotes plan.create e1
    let resolverOut :=
      if plan.conflicts.length > 0 then
        let r := onConflict plan.conflicts cfg.overwriteAll decide e2 0
          (plan.conflicts.map (fun c => c.conflictNote))
        (r.1, r.2.1)
      else (e2, [])
    some { engine := resolverOut.1,
           importedNotes := plan.create ++ resolverOut.2,
           conflictCount := plan.conflicts.length,
           updateCommits := commits }

/-- The response envelope of a members listing: `data` array and `links.next`. -/
structure OrbitResponse where
  data : List OrbitMemberData
  linksNext : Option String
deriving DecidableEq, Repr, Inhabited

/-- Error severity (`ERROR_SEVERITY`). -/
inductive Severity where
  | minor : Severity
  | fatal : Severity
deriving DecidableEq, Repr, Inhabited

/-- The classified error thrown on a fetch failure (`DendronError`). -/
structure DendronErr where
  message : String
  severity : Severity
deriving DecidableEq, Repr, Inhabited

/-- Modelled from the spec: `stringifyError` (imported from common-all, whose
implementation is not among the sources under study) renders the underlying
cause as a human-readable string; the cause is modelled as that string itself. -/
def stringifyError (cause : String) : String := cause

/-- The classified error a failed page fetch throws. -/
def fetchErr (cause : String) : DendronErr :=
  { message := stringifyError cause, severity := Severity.minor }

/-- The default first-page listing URL. -/
def defaultMembersLink (workspaceSlug : String) : String :=
  "https://app.orbit.love/api/v1/" ++ workspaceSlug ++ "/members?items=100"

/-- Resolve the cursor into the URL actually fetched: an empty link falls back
to the default listing URL. -/
def resolveLink (workspaceSlug link : String) : String :=
  if link.length > 0 then link else defaultMembersLink workspaceSlug

/-- `OrbitImportPod.getMembersFromOrbit`: resolve an empty link to the default
listing URL, fetch it (`fetch` models `axios.get`, returning the transport or
non-2xx cause on failure), and on success return the page's records in arrival
order together with the next cursor. Since `next` is only assigned inside the
`forEach` over the records, an empty page yields `next = null` whatever the
response's `links.next` says. -/
def getMembersFromOrbit (fetch : String → Except String OrbitResponse)
    (workspaceSlug link : String) :
    Except DendronErr (List OrbitMemberData × Option String) :=
  match fetch (resolveLink workspaceSlug link) with
  | Except.error cause => Except.error (fetchErr cause)
  | Except.ok response =>
    let next := if response.data.isEmpty then none else response.linksNext
    Except.ok (response.data, next)

/-- Outcome of draining the member listing. -/
inductive FetchOutcome where
  | ok : List OrbitMemberData → FetchOutcome
  | err : DendronErr → FetchOutcome
  | fuelOut : FetchOutcome
deriving DecidableEq, Repr, Inhabited

/-- The `while (next !== null)` loop of `getAllMembers`, with explicit fuel
(the source loop has no bound of its own) and, as instrumentation, the list of
links actually fetched. The cursor state is `some link` while the loop runs and
`none` once the returned next cursor was the end marker. -/
def getAllMembersAux (fetch : String → Except String OrbitResponse)
    (workspaceSlug : String) :
    Nat → Option String → List OrbitMemberData → List String →
    FetchOutcome × List String
  | _, none, acc, trace => (FetchOutcome.ok acc, trace)
  | 0, some _, _, trace => (FetchOutcome.fuelOut, trace)
  | fuel + 1, some link, acc, trace =>
    let resolved := resolveLink workspaceSlug link
    match getMembersFromOrbit fetch workspaceSlug link with
    | Except.error e => (FetchOutcome.err e, trace ++ [resolved])
    | Except.ok (ms, next) =>
      getAllMembersAux fetch workspaceSlug fuel next (acc ++ ms) (trace ++ [resolved])

/-- `OrbitImportPod.getAllMembers`: start from the empty cursor and drain. -/
def getAllMembers (fetch : String → Except String OrbitResponse)
    (workspaceSlug : String) (fuel : Nat) : FetchOutcome × List String :=
  getAllMembersAux fetch workspaceSlug fuel (some "") [] []

/-! Specification-side definitions, written from the wording of the spec rather
than from the source, for the refinement-flavoured claims. -/

/-- Modelled from the spec: the identity-resolution fallback chain in the
spec's own words — the first non-empty value among explicit display name,
github handle, discord handle, twitter handle, and a username derived from the
email's local part (substring before the at sign), with the record's external
identifier as final fallback. -/
def specChain (m : OrbitMemberData) : String :=
  (([m.name.getD "", m.github, m.discord.getD "", m.twitter.getD "",
     beforeAt (m.email.getD "")].filter
       (fun s => decide (s ≠ ""))).headD m.id)

/-- Modelled from the spec: `resolveName` — the fallback chain followed by the
filename-sanitization step (parameter `san`). -/
def resolveNameSpec (san : String → String) (m : OrbitMemberData) : String :=
  san (specChain m)

/-- Modelled from the spec: the pagination protocol — repeat the page fetch
from a cursor, each time passing the returned next cursor, until it is the end
marker `null`, concatenating the fetched records in arrival order. -/
inductive FollowsPages (fetch : String → Except String OrbitResponse)
    (workspaceSlug : String) : String → List OrbitMemberData → Prop where
  | last (c : String) (ms : List OrbitMemberData) :
      getMembersFromOrbit fetch workspaceSlug c = Except.ok (ms, none) →
      FollowsPages fetch workspaceSlug c ms
  | step (c : String) (ms : List OrbitMemberData) (c' : String)
      (rest : List OrbitMemberData) :
      getMembersFromOrbit fetch workspaceSlug c = Except.ok (ms, some c') →
      FollowsPages fetch workspaceSlug c' rest →
      FollowsPages fetch workspaceSlug c (ms ++ rest)

/-! Helper notions used to state and prove the theorems. -/

/-- Value of one social field after `updateNoteData` ran over it: a stored
`null` with a non-null incoming value is replaced by the incoming value,
everything else is kept. -/
def adoptVal (ex : SVal) (inc : Option String) : SVal :=
  match ex, inc with
  | SVal.null, some s => SVal.str s
  | _, _ => ex

/-- Whether `updateNoteData` adopts the incoming value of one social field. -/
def adoptCond (ex : SVal) (inc : Option String) : Bool :=
  match ex, inc with
  | SVal.null, some _ => true
  | _, _ => false

/-- The synthesized conflict entry renamed back to the conflicted note's
original name, as `OVERWRITE_LOCAL` commits it. -/
def renameEntry (c : Conflict) : Note :=
  { c.conflictEntry with fname := c.conflictNote.fname }

/-- The engine after the resolver walked the queue indices `i, i+1, ...,
i+n-1`, committing the renamed entry for each `OVERWRITE_LOCAL` decision and
nothing for any other decision. -/
def commitsSeg (conflicts : List Conflict) (decide : Nat → Option MergeOpt) :
    Nat → Nat → Engine → Engine
  | _, 0, e => e
  | i, n + 1, e =>
    let e' := match decide i with
      | some MergeOpt.overwriteLocal =>
        writeNote (renameEntry (conflicts.getD i default)) e
      | _ => e
    commitsSeg conflicts decide (i + 1) n e'

/-- The decision stream an `overwriteAll` run effectively follows. -/
def owDecide : Nat → Option MergeOpt := fun _ => some MergeOpt.overwriteLocal

/-- The derived document name of a member. -/
def memberFname (san : String → String) (m : OrbitMemberData) : String :=
  peopleFname (cleanName san m)

/-- A stored social value in equilibrium with the incoming value: a stored
string equals the incoming value and a stored null corresponds to a null
incoming value (an undefined stored value is always in equilibrium). -/
def calmVal (ex : SVal) (inc : Option String) : Prop :=
  (∀ s, ex = SVal.str s → inc = some s) ∧ (ex = SVal.null → inc = none)

/-- A note in equilibrium with a member: it has a custom bag and every social
field is in equilibrium with the incoming value. -/
def calmNote (n : Note) (m : OrbitMemberData) : Prop :=
  ∃ c, n.custom = some c ∧
    ∀ k, calmVal ((c.social.getD emptyBag).get k) (incomingAttr m k)

/-- The engine writes a run performs on behalf of one member: the created note,
the renamed conflict entry, or the updated note when its update is not a no-op. -/
def expectedWrites (san : String → String) (today : String) (cfg : OrbitConfig)
    (fastMode : Bool) (engine : Engine) (m : OrbitMemberData) : List Note :=
  match planMember san today cfg fastMode engine m with
  | PlanItem.create n => [n]
  | PlanItem.conflict c => [renameEntry c]
  | PlanItem.update n mm =>
    match updateNoteData n mm with
    | some (n', true) => [n']
    | _ => []

/-! Concrete sample data shared by the witnesses and counterexamples. -/

/-- A member whose only identity attribute is a well-formed email. -/
def mAlice : OrbitMemberData :=
  { id := "m1", name := none, github := "", discord := none, linkedin := none,
    twitter := none, email := some "alice@x.com" }

/-- A member whose only identity attribute is an email with empty local part. -/
def mAt : OrbitMemberData :=
  { id := "m1", name := none, github := "", discord := none, linkedin := none,
    twitter := none, email := some "@x.com" }

/-- A member with no identity attribute set at all. -/
def mNothing : OrbitMemberData :=
  { id := "m1", name := none, github := "", discord := none, linkedin := none,
    twitter := none, email := none }

/-- An incoming record for bob with a fresh github handle. -/
def mBob : OrbitMemberData :=
  { id := "b1", name := some "bob", github := "bob-new", discord := none,
    linkedin := none, twitter := none, email := none }

/-- Bob's stored social bag with the stale github handle. -/
def bobOldBag : SocialBag := { emptyBag with github := SVal.str "bob-old" }

/-- Bob's pre-existing note. -/
def bobNote : Note :=
  { fname := "people.bob", custom := some { social := some bobOldBag } }

/-- A note whose github field is undefined (absent), not null. -/
def undefNote : Note :=
  { fname := "people.bob", custom := some { social := some emptyBag } }

/-- A social bag whose discord field is null (set but empty). -/
def nullBag : SocialBag := { emptyBag with discord := SVal.null }

/-- Custom metadata carrying `nullBag`. -/
def nullCustom : Custom := { social := some nullBag }

/-- A note whose discord field is null. -/
def nullNote : Note := { fname := "people.dd", custom := some nullCustom }

/-- An incoming record carrying a discord handle. -/
def mDisc : OrbitMemberData :=
  { id := "d1", name := some "dd", github := "", discord := some "dd-handle",
    linkedin := none, twitter := none, email := none }

/-- The conflict entry the planner queues for bob. -/
def cBob : Conflict :=
  { conflictNote := bobNote,
    conflictEntry := newNote (duplicateFname "2026.10.12" "bob") mBob,
    conflictData := [SocialKey.github] }

/-- A configuration with an explicit destination-name override. -/
def cfgDest : OrbitConfig := { destName := some "custom", overwriteAll := false }

/-- A configuration with the overwrite-all flag set and no override name. -/
def cfgOw : OrbitConfig := { destName := none, overwriteAll := true }

/-- A configuration with neither the overwrite-all flag nor an override name. -/
def cfgSkip : OrbitConfig := { destName := none, overwriteAll := false }

/-- The run result of a fresh single-member import of bob. -/
def r1Bob : RunResult :=
  { engine := [newNote "people.bob" mBob],
    importedNotes := [newNote "people.bob" mBob], conflictCount := 0,
    updateCommits := 0 }

/-- A pre-existing note stored under the override name. -/
def customNote : Note :=
  { fname := "custom", custom := some { social := some emptyBag } }

/-- A listing whose first page is empty but still advertises a next link. -/
def fetchEmptyPage : String → Except String OrbitResponse := fun link =>
  if link = defaultMembersLink "ws" then
    Except.ok { data := [], linksNext := some "L2" }
  else Except.ok { data := [mBob], linksNext := none }

/-- A decision stream answering SKIP at index 0 and SKIP_ALL at index 1. -/
def decideSkipThenAll : Nat → Option MergeOpt :=
  fun i => if i = 1 then some MergeOpt.skipAll else some MergeOpt.skip

/-- A deterministic two-page member listing ending with a null next link. -/
def fetchTwoPages : String → Except String OrbitResponse := fun link =>
  if link = defaultMembersLink "ws" then
    Except.ok { data := [mBob], linksNext := some "L2" }
  else if link = "L2" then
    Except.ok { data := [mAlice], linksNext := none }
  else Except.error "boom"

/-! General helper lemmas. -/

theorem SocialBag.get_set (b : SocialBag) (k j : SocialKey) (v : SVal) :
    (b.set k v).get j = if j = k then v else b.get j := by
  cases k <;> cases j <;> simp [SocialBag.get, SocialBag.set]

theorem socialKeys_nodup : socialKeys.Nodup := by decide

theorem mem_socialKeys (k : SocialKey) : k ∈ socialKeys := by
  cases k <;> decide

theorem lookupNote_cons (n : Note) (e : List Note) (f : String) :
    lookupNote (n :: e) f = if n.fname = f then some n else lookupNote e f := by
  by_cases h : n.fname = f <;> simp [lookupNote, List.find?_cons, h]

theorem lookupNote_append_none (ws e : List Note) (f : String)
    (h : ∀ w ∈ ws, w.fname ≠ f) :
    lookupNote (ws ++ e) f = lookupNote e f := by
  induction ws with
  | nil => rfl
  | cons w ws ih =>
    rw [List.cons_append, lookupNote_cons,
      if_neg (h w (List.mem_cons_self w ws))]
    exact ih (fun w' hw' => h w' (List.mem_cons_of_mem w hw'))

theorem lookupNote_append_unique (ws e : List Note) (f : String) (w : Note)
    (hmem : w ∈ ws) (hf : w.fname = f)
    (huniq : ∀ w' ∈ ws, w'.fname = f → w' = w) :
    lookupNote (ws ++ e) f = some w := by
  induction ws with
  | nil => cases hmem
  | cons x ws ih =>
    rw [List.cons_append, lookupNote_cons]
    by_cases hx : x.fname = f
    · rw [if_pos hx, huniq x (List.mem_cons_self x ws) hx]
    · rw [if_neg hx]
      have hmem' : w ∈ ws := by
        rcases List.mem_cons.mp hmem with h | h
        · exact absurd (h ▸ hf) (by simpa [h] using hx)
        · exact h
      exact ih hmem' (fun w' hw' hfw' => huniq w' (List.mem_cons_of_mem x hw') hfw')

theorem lookupNote_fname (e : Engine) (f : String) (n : Note)
    (h : lookupNote e f = some n) : n.fname = f := by
  have := List.find?_some h
  simpa using this

/-! C3: the conflict detector. -/

theorem getConflictedData_sublist (note : Note) (m : OrbitMemberData) :
    (getConflictedData note m).Sublist socialKeys := by
  rcases hcu : note.custom with _ | c
  · simp [getConflictedData, hcu, List.nil_sublist]
  · rcases hso : c.social with _ | bag
    · simp [getConflictedData, hcu, hso, List.nil_sublist]
    · simp only [getConflictedData, hcu, hso]
      exact List.filter_sublist socialKeys

/-- C3: for every existing note and incoming record, the conflict detector
returns the empty list when the social metadata bag is absent, and otherwise
returns exactly the social keys whose stored value is neither null nor
undefined and strictly (type-sensitively) differs from the incoming value, each
key at most once, in the fixed social-key enumeration order. -/
theorem C3_conflictDetector (note : Note) (m : OrbitMemberData) :
    ((note.custom = none ∨ ∃ c, note.custom = some c ∧ c.social = none) →
      getConflictedData note m = []) ∧
    (∀ c bag, note.custom = some c → c.social = some bag →
      ∀ k, (k ∈ getConflictedData note m ↔
        bag.get k ≠ SVal.null ∧ bag.get k ≠ SVal.undef ∧
          svalOfOpt (incomingAttr m k) ≠ bag.get k)) ∧
    (getConflictedData note m).Sublist socialKeys ∧
    (getConflictedData note m).Nodup := by
  refine ⟨?_, ?_, getConflictedData_sublist note m,
    (getConflictedData_sublist note m).nodup socialKeys_nodup⟩
  · rintro (h | ⟨c, hc, hs⟩)
    · simp [getConflictedData, h]
    · simp [getConflictedData, hc, hs]
  · intro c bag hc hs k
    simp only [getConflictedData, hc, hs, List.mem_filter,
      mem_socialKeys k, true_and, Bool.and_eq_true, Bool.not_eq_true',
      decide_eq_false_iff_not, and_assoc]

/-- Witness for C3 at a concrete conflicted note. -/
theorem C3_conflictDetector_witness :
    SocialKey.github ∈ getConflictedData bobNote mBob ∧
    (getConflictedData bobNote mBob).Nodup := by
  constructor
  · exact ((C3_conflictDetector bobNote mBob).2.1 _ _ rfl rfl
      SocialKey.github).mpr (by decide)
  · exact (C3_conflictDetector bobNote mBob).2.2.2

/-! C6: the identity resolver. -/

theorem firstTruthy_cons (dflt : String) (x : Option String)
    (rest : List (Option String)) :
    firstTruthy dflt (x :: rest) =
      if x.getD "" = "" then firstTruthy dflt rest else x.getD "" := by
  rcases x with _ | s
  · simp [firstTruthy, truthy]
  · by_cases h : s = "" <;> simp [firstTruthy, truthy, h]

theorem filterHead_cons (dflt s : String) (rest : List String) :
    (((s :: rest).filter (fun t => decide (t ≠ ""))).headD dflt) =
      if s = "" then ((rest.filter (fun t => decide (t ≠ ""))).headD dflt)
      else s := by
  by_cases h : s = "" <;> simp [List.filter, h]

theorem getNameFromEmail_getD (email : Option String) :
    (getNameFromEmail email).getD "" = beforeAt (email.getD "") := by
  rcases email with _ | e
  · rfl
  · by_cases h : e = ""
    · subst h
      rfl
    · simp [getNameFromEmail, h]

theorem cleanName_eq_spec (san : String → String) (m : OrbitMemberData) :
    cleanName san m = resolveNameSpec san m := by
  unfold cleanName resolveNameSpec specChain
  congr 1
  rw [firstTruthy_cons, firstTruthy_cons, firstTruthy_cons, firstTruthy_cons,
    firstTruthy_cons, filterHead_cons, filterHead_cons, filterHead_cons,
    filterHead_cons, filterHead_cons, getNameFromEmail_getD]
  simp [firstTruthy]

/-- C6 (amended): the identity resolver equals the sanitized first non-empty
value of the fallback chain (name, github, discord, twitter, email local part,
external id as fallback); in particular a record with nothing set resolves to
the sanitized external identifier, and a record with only an email set resolves
to the sanitized local part provided that local part is non-empty (an email
with empty local part falls through to the external identifier). -/
theorem C6_resolveName (san : String → String) (m : OrbitMemberData) :
    cleanName san m = resolveNameSpec san m ∧
    (m.name = none → m.github = "" → m.discord = none → m.twitter = none →
      m.email = none → cleanName san m = san m.id) ∧
    (∀ e, m.name = none → m.github = "" → m.discord = none → m.twitter = none →
      m.email = some e → beforeAt e ≠ "" →
      cleanName san m = san (beforeAt e)) := by
  refine ⟨cleanName_eq_spec san m, ?_, ?_⟩
  · intro h1 h2 h3 h4 h5
    rw [cleanName_eq_spec]
    unfold resolveNameSpec specChain
    simp [h1, h2, h3, h4, h5, beforeAt]
  · intro e h1 h2 h3 h4 h5 h6
    rw [cleanName_eq_spec]
    unfold resolveNameSpec specChain
    have he : e ≠ "" := by
      intro h
      subst h
      exact h6 (by rfl)
    simp [h1, h2, h3, h4, h5, h6]

/-- Counterexample to C6 as stated: a record whose only set attribute is an
email with an empty local part resolves to the external identifier, not to the
email's local part. -/
theorem C6_counterexample :
    mAt.email = some "@x.com" ∧ mAt.name = none ∧ mAt.github = "" ∧
    mAt.discord = none ∧ mAt.twitter = none ∧ mAt.id = "m1" ∧
    cleanName (fun s => s) mAt = "m1" ∧
    beforeAt "@x.com" = "" ∧ ("m1" : String) ≠ "" := by
  refine ⟨rfl, rfl, rfl, rfl, rfl, rfl, by decide, by decide, by decide⟩

/-- Witness for C6 at a record with nothing set and one with only an email. -/
theorem C6_resolveName_witness :
    cleanName (fun s => s) mNothing = "m1" ∧
    cleanName (fun s => s) mAlice = "alice" := by
  constructor
  · exact (C6_resolveName (fun s => s) mNothing).2.1 rfl rfl rfl rfl rfl
  · exact (C6_resolveName (fun s => s) mAlice).2.2 "alice@x.com" rfl rfl rfl rfl
      rfl (by decide)

/-! C4: the non-conflicting update path. -/

theorem any_congr_mem {α : Type} (p q : α → Bool) (l : List α)
    (h : ∀ a ∈ l, p a = q a) : l.any p = l.any q := by
  induction l with
  | nil => rfl
  | cons x xs ih =>
    simp only [List.any_cons, h x (List.mem_cons_self x xs)]
    rw [ih (fun a ha => h a (List.mem_cons_of_mem x ha))]

theorem updateStep_spec (m : OrbitMemberData) (b : SocialBag) (f : Bool)
    (k : SocialKey) :
    updateStep m (b, f) k =
      if adoptCond (b.get k) (incomingAttr m k) then
        (b.set k (adoptVal (b.get k) (incomingAttr m k)), true)
      else (b, f) := by
  rcases hb : b.get k with _ | _ | s <;>
    rcases hi : incomingAttr m k with _ | t <;>
      simp [updateStep, adoptCond, adoptVal, hb, hi]

theorem adoptVal_ne_iff (ex : SVal) (inc : Option String) :
    adoptVal ex inc ≠ ex ↔ adoptCond ex inc = true := by
  rcases ex with _ | _ | s <;> rcases inc with _ | t <;>
    simp [adoptVal, adoptCond]

theorem updateFold_spec (m : OrbitMemberData) :
    ∀ (keys : List SocialKey), keys.Nodup → ∀ (bag : SocialBag) (flag : Bool),
      (∀ k ∈ keys,
        (keys.foldl (updateStep m) (bag, flag)).1.get k =
          adoptVal (bag.get k) (incomingAttr m k)) ∧
      (∀ k, k ∉ keys →
        (keys.foldl (updateStep m) (bag, flag)).1.get k = bag.get k) ∧
      ((keys.foldl (updateStep m) (bag, flag)).2 =
        (flag || keys.any (fun k => adoptCond (bag.get k) (incomingAttr m k)))) := by
  intro keys
  induction keys with
  | nil => intro _ bag flag; exact ⟨by simp, by simp, by simp⟩
  | cons k0 keys ih =>
    intro hnd bag flag
    have hk0 : k0 ∉ keys := (List.nodup_cons.mp hnd).1
    have hnd' : keys.Nodup := (List.nodup_cons.mp hnd).2
    rw [List.foldl_cons, updateStep_spec]
    by_cases hc : adoptCond (bag.get k0) (incomingAttr m k0) = true
    · rw [if_pos hc]
      obtain ⟨h1, h2, h3⟩ :=
        ih hnd' (bag.set k0 (adoptVal (bag.get k0) (incomingAttr m k0))) true
      refine ⟨?_, ?_, ?_⟩
      · intro k hk
        rcases List.mem_cons.mp hk with rfl | hk'
        · rw [h2 k hk0, SocialBag.get_set, if_pos rfl]
        · rw [h1 k hk']
          congr 1
          rw [SocialBag.get_set, if_neg ?_]
          intro h
          exact hk0 (h ▸ hk')
      · intro k hk
        have hk1 : k ≠ k0 := fun h => hk (h ▸ List.mem_cons_self k0 keys)
        have hk2 : k ∉ keys := fun h => hk (List.mem_cons_of_mem k0 h)
        rw [h2 k hk2, SocialBag.get_set, if_neg hk1]
      · rw [h3]
        have hany : keys.any
            (fun k => adoptCond
              ((bag.set k0 (adoptVal (bag.get k0) (incomingAttr m k0))).get k)
              (incomingAttr m k)) =
            keys.any (fun k => adoptCond (bag.get k) (incomingAttr m k)) := by
          apply any_congr_mem
          intro k hk
          rw [SocialBag.get_set, if_neg ?_]
          intro h
          exact hk0 (h ▸ hk)
        rw [hany]
        simp [List.any_cons, hc]
    · rw [if_neg hc]
      obtain ⟨h1, h2, h3⟩ := ih hnd' bag flag
      refine ⟨?_, ?_, ?_⟩
      · intro k hk
        rcases List.mem_cons.mp hk with rfl | hk'
        · rw [h2 k hk0]
          rcases hb : bag.get k with _ | _ | s <;>
            rcases hi : incomingAttr m k with _ | t <;>
              simp_all [adoptVal, adoptCond]
        · exact h1 k hk'
      · intro k hk
        exact h2 k (fun h => hk (List.mem_cons_of_mem k0 h))
      · rw [h3]
        simp [List.any_cons, hc]

/-- C4 (amended): in the non-conflicting update path, a previously-null social
field with a non-null incoming value is silently adopted, a previously-undefined
(absent) field is left untouched, and the update commit is issued if and only
if at least one field actually changed value. -/
theorem C4_updateNoteData (note : Note) (m : OrbitMemberData) (c : Custom)
    (hc : note.custom = some c) :
    ∃ bag' b,
      updateNoteData note m =
        some ({ note with custom := some { c with social := some bag' } }, b) ∧
      (∀ k, bag'.get k =
        adoptVal ((c.social.getD emptyBag).get k) (incomingAttr m k)) ∧
      (b = true ↔ ∃ k, bag'.get k ≠ (c.social.getD emptyBag).get k) ∧
      (∀ engine, applyUpdates engine [(note, m)] =
        some ((if b then
            writeNote { note with custom := some { c with social := some bag' } }
              engine
          else engine), if b then 1 else 0)) := by
  obtain ⟨h1, _h2, h3⟩ :=
    updateFold_spec m socialKeys socialKeys_nodup (c.social.getD emptyBag) false
  set r := socialKeys.foldl (updateStep m) (c.social.getD emptyBag, false) with hr
  have hupd : updateNoteData note m =
      some ({ note with custom := some { c with social := some r.1 } }, r.2) := by
    simp [updateNoteData, hc, hr]
  refine ⟨r.1, r.2, hupd, ?_, ?_, ?_⟩
  · intro k
    exact h1 k (mem_socialKeys k)
  · rw [h3]
    simp only [Bool.false_or, List.any_eq_true]
    constructor
    · rintro ⟨k, _hk, hcond⟩
      exact ⟨k, by
        rw [h1 k (mem_socialKeys k)]
        exact (adoptVal_ne_iff _ _).mpr hcond⟩
    · rintro ⟨k, hne⟩
      refine ⟨k, mem_socialKeys k, ?_⟩
      rw [h1 k (mem_socialKeys k)] at hne
      exact (adoptVal_ne_iff _ _).mp hne
  · intro engine
    simp [applyUpdates, hupd]

/-- Counterexample to C4 as stated: a previously-undefined (absent) github
field with a differing incoming value is not adopted, and no update commit is
issued even though the claim calls for adoption and a commit. -/
theorem C4_counterexample :
    undefNote.custom = some { social := some emptyBag } ∧
    emptyBag.get SocialKey.github = SVal.undef ∧
    incomingAttr mBob SocialKey.github = some "bob-new" ∧
    updateNoteData undefNote mBob = some (undefNote, false) ∧
    applyUpdates [] [(undefNote, mBob)] = some (([] : Engine), 0) := by
  refine ⟨rfl, by decide, by decide, by decide, by decide⟩

/-- Witness for C4 at a note with a null discord field and an incoming discord
handle: the field is adopted and the commit fires. -/
theorem C4_updateNoteData_witness :
    ∃ bag' b,
      updateNoteData nullNote mDisc =
        some ({ nullNote with
          custom := some { nullCustom with social := some bag' } }, b) ∧
      (b = true ↔ ∃ k, bag'.get k ≠ (nullCustom.social.getD emptyBag).get k) := by
  obtain ⟨bag', b, h1, _h2, h3, _h4⟩ := C4_updateNoteData nullNote mDisc nullCustom rfl
  exact ⟨bag', b, h1, h3⟩

/-! C2: the destName override. -/

/-- C2 (amended): an explicit override destination name is used for the
existing-node lookup only in fast mode; in normal mode the lookup uses the
derived `people.<name>`, and a newly created node is always named
`people.<name>` regardless of the override. -/
theorem C2_destName (san : String → String) (today : String) (cfg : OrbitConfig)
    (m : OrbitMemberData) (d : String) (hd : cfg.destName = some d)
    (hne : d ≠ "") :
    lookupFname cfg true (cleanName san m) = d ∧
    lookupFname cfg false (cleanName san m) = peopleFname (cleanName san m) ∧
    (∀ fastMode engine,
      lookupNote engine (lookupFname cfg fastMode (cleanName san m)) = none →
      planMember san today cfg fastMode engine m =
        PlanItem.create (newNote (peopleFname (cleanName san m)) m)) := by
  refine ⟨?_, ?_, ?_⟩
  · simp [lookupFname, truthy, hd, hne]
  · simp [lookupFname]
  · intro fastMode engine hlook
    simp [planMember, hlook]

/-- Counterexample to C2 as stated: with override name "custom" and normal
mode the planner misses the note stored under "custom" and creates the new
node under the derived name, not under "custom". -/
theorem C2_counterexample :
    cfgDest.destName = some "custom" ∧
    lookupNote [customNote] "custom" = some customNote ∧
    planMember (fun s => s) "2026.10.12" cfgDest false [customNote] mBob =
      PlanItem.create (newNote "people.bob" mBob) ∧
    (newNote "people.bob" mBob).fname ≠ "custom" := by
  refine ⟨rfl, by decide, by decide, by decide⟩

/-- Witness for C2 at the override configuration. -/
theorem C2_destName_witness :
    lookupFname cfgDest true (cleanName (fun s => s) mBob) = "custom" ∧
    planMember (fun s => s) "2026.10.12" cfgDest false [] mBob =
      PlanItem.create (newNote (peopleFname (cleanName (fun s => s) mBob)) mBob) := by
  refine ⟨(C2_destName (fun s => s) "2026.10.12" cfgDest mBob "custom" rfl
      (by decide)).1,
    (C2_destName (fun s => s) "2026.10.12" cfgDest mBob "custom" rfl
      (by decide)).2.2 false [] rfl⟩

/-! C10 and C9: behaviour of one page fetch inside the pagination loop. -/

/-- C10: a page whose data array is empty yields a null next cursor regardless
of the response's links.next value, so the pagination loop terminates at that
page and nothing further is ever fetched. -/
theorem C10_emptyPage (fetch : String → Except String OrbitResponse)
    (slug link : String) (resp : OrbitResponse)
    (hresp : fetch (resolveLink slug link) = Except.ok resp)
    (hdata : resp.data = []) :
    getMembersFromOrbit fetch slug link = Except.ok ([], none) ∧
    (∀ fuel acc trace,
      getAllMembersAux fetch slug (fuel + 1) (some link) acc trace =
        (FetchOutcome.ok acc, trace ++ [resolveLink slug link])) := by
  have hpage : getMembersFromOrbit fetch slug link = Except.ok ([], none) := by
    simp [getMembersFromOrbit, hresp, hdata]
  refine ⟨hpage, ?_⟩
  intro fuel acc trace
  simp [getAllMembersAux, hpage]

/-- Witness for C10: the third page of the sample listing is empty with a
non-null next link, and the loop stops there. -/
theorem C10_emptyPage_witness :
    getMembersFromOrbit fetchEmptyPage "ws" "" = Except.ok ([], none) ∧
    getAllMembersAux fetchEmptyPage "ws" 5 (some "") [] [] =
      (FetchOutcome.ok [], [resolveLink "ws" ""]) := by
  have h := C10_emptyPage fetchEmptyPage "ws" ""
    { data := [], linksNext := some "L2" } rfl rfl
  exact ⟨h.1, h.2 4 [] []⟩

/-- C9: a transport or non-2xx failure during a page fetch raises a classified
minor-severity error carrying the stringified cause; the loop performs no retry
and aborts at that page with the error as the run's outcome, fetching nothing
further. -/
theorem C9_fetchFailure (fetch : String → Except String OrbitResponse)
    (slug link cause : String)
    (hfail : fetch (resolveLink slug link) = Except.error cause) :
    getMembersFromOrbit fetch slug link = Except.error (fetchErr cause) ∧
    (∀ fuel acc trace,
      getAllMembersAux fetch slug (fuel + 1) (some link) acc trace =
        (FetchOutcome.err (fetchErr cause),
         trace ++ [resolveLink slug link])) := by
  have hpage : getMembersFromOrbit fetch slug link =
      Except.error (fetchErr cause) := by
    simp [getMembersFromOrbit, hfail]
  refine ⟨hpage, ?_⟩
  intro fuel acc trace
  simp [getAllMembersAux, hpage]

/-- Witness for C9: fetching the unknown cursor "L9" fails with the classified
error and ends the run at that page. -/
theorem C9_fetchFailure_witness :
    getMembersFromOrbit fetchTwoPages "ws" "L9" =
      Except.error (fetchErr "boom") ∧
    getAllMembersAux fetchTwoPages "ws" 5 (some "L9") [] [] =
      (FetchOutcome.err (fetchErr "boom"), [resolveLink "ws" "L9"]) := by
  have h := C9_fetchFailure fetchTwoPages "ws" "L9" "boom" rfl
  exact ⟨h.1, h.2 4 [] []⟩

/-! C8: the pagination loop follows the protocol. -/

theorem getAllMembersAux_ok (fetch : String → Except String OrbitResponse)
    (slug : String) :
    ∀ (fuel : Nat) (c : String) (acc : List OrbitMemberData)
      (trace0 : List String) (ms : List OrbitMemberData) (trace : List String),
      getAllMembersAux fetch slug fuel (some c) acc trace0 =
        (FetchOutcome.ok ms, trace) →
      ∃ rest, ms = acc ++ rest ∧ FollowsPages fetch slug c rest := by
  intro fuel
  induction fuel with
  | zero =>
    intro c acc trace0 ms trace h
    simp [getAllMembersAux] at h
  | succ fuel ih =>
    intro c acc trace0 ms trace h
    rw [getAllMembersAux] at h
    rcases hp : getMembersFromOrbit fetch slug c with e | pr
    · rw [hp] at h
      simp at h
    · rcases pr with ⟨pms, next⟩
      rw [hp] at h
      rcases next with _ | c'
      · simp only [getAllMembersAux, Prod.mk.injEq, FetchOutcome.ok.injEq] at h
        exact ⟨pms, h.1.symm, FollowsPages.last c pms hp⟩
      · obtain ⟨rest', hms, hf⟩ := ih c' (acc ++ pms) (trace0 ++ [resolveLink slug c]) ms trace h
        exact ⟨pms ++ rest', by simpa [List.append_assoc] using hms,
          FollowsPages.step c pms c' rest' hp hf⟩

/-- C8: a successful drain of the member listing follows the spec's pagination
protocol: starting from the empty cursor, each iteration passes the previous
response's returned next link until that link is the end marker, and all
records accumulate in arrival order. -/
theorem C8_pagination (fetch : String → Except String OrbitResponse)
    (slug : String) (fuel : Nat) (ms : List OrbitMemberData)
    (trace : List String)
    (h : getAllMembers fetch slug fuel = (FetchOutcome.ok ms, trace)) :
    FollowsPages fetch slug "" ms := by
  obtain ⟨rest, hms, hf⟩ :=
    getAllMembersAux_ok fetch slug fuel "" [] [] ms trace h
  simpa [hms] using hf

/-- Witness for C8 at the two-page sample listing. -/
theorem C8_pagination_witness :
    FollowsPages fetchTwoPages "ws" "" [mBob, mAlice] := by
  exact C8_pagination fetchTwoPages "ws" 3 [mBob, mAlice]
    [resolveLink "ws" "", "L2"] (by decide)

/-! C5 and C1: the sequential conflict resolver. -/

theorem onConflict_skipAll_seg (conflicts : List Conflict)
    (dcd : Nat → Option MergeOpt) (k : Nat)
    (hk : k < conflicts.length) (hsk : dcd k = some MergeOpt.skipAll) :
    ∀ (n i : Nat), i + n = k →
      (∀ j, i ≤ j → j < k → dcd j ≠ some MergeOpt.skipAll) →
      ∀ (engine : Engine) (resolved : List Note),
        onConflict conflicts false dcd engine i resolved =
          (commitsSeg conflicts dcd i n engine, resolved,
           List.range' i (n + 1)) := by
  intro n
  induction n with
  | zero =>
    intro i hi _ engine resolved
    have hik : i = k := by omega
    subst hik
    rw [onConflict]
    simp [hsk, commitsSeg, List.range']
  | succ n ih =>
    intro i hi hno engine resolved
    have hik : i < k := by omega
    have hguard : i < conflicts.length - 1 := by omega
    have hresp : dcd i ≠ some MergeOpt.skipAll := hno i le_rfl hik
    have hrec : ∀ engine' : Engine,
        onConflict conflicts false dcd engine' (i + 1) resolved =
          (commitsSeg conflicts dcd (i + 1) n engine', resolved,
           List.range' (i + 1) (n + 1)) := by
      intro engine'
      exact ih (i + 1) (by omega)
        (fun j hj1 hj2 => hno j (by omega) hj2) engine' resolved
    rw [onConflict]
    rcases hd : dcd i with _ | opt
    · simp only [Bool.false_eq_true, if_false, hd]
      rw [dif_pos hguard, hrec]
      simp only [commitsSeg, hd, List.range'_succ]
    · cases opt with
      | overwriteLocal =>
        simp only [Bool.false_eq_true, if_false, hd]
        rw [dif_pos hguard, hrec]
        simp only [commitsSeg, hd, List.range'_succ, renameEntry, writeNote]
      | skip =>
        simp only [Bool.false_eq_true, if_false, hd]
        rw [dif_pos hguard, hrec]
        simp only [commitsSeg, hd, List.range'_succ]
      | skipAll => exact absurd hd hresp

/-- C5: when the decision source answers SKIP_ALL at queue index k (and at no
earlier index), the resolver visits exactly the indices 0..k in the planner's
order, requests no decision and issues no commit for any index beyond k,
terminates immediately, returns the accumulated list unchanged, and the engine
reflects only the decisions strictly before k. -/
theorem C5_skipAll (conflicts : List Conflict) (dcd : Nat → Option MergeOpt)
    (engine : Engine) (resolved : List Note) (k : Nat)
    (hk : k < conflicts.length) (hsk : dcd k = some MergeOpt.skipAll)
    (hbefore : ∀ j, j < k → dcd j ≠ some MergeOpt.skipAll) :
    onConflict conflicts false dcd engine 0 resolved =
      (commitsSeg conflicts dcd 0 k engine, resolved, List.range (k + 1)) := by
  rw [List.range_eq_range']
  exact onConflict_skipAll_seg conflicts dcd k hk hsk k 0 (by omega)
    (fun j _ hj => hbefore j hj) engine resolved

/-- Witness for C5: SKIP at index 0, SKIP_ALL at index 1, a three-entry queue;
only indices 0 and 1 are visited and nothing is committed. -/
theorem C5_skipAll_witness :
    onConflict [cBob, cBob, cBob] false decideSkipThenAll [] 0 [bobNote] =
      (commitsSeg [cBob, cBob, cBob] decideSkipThenAll 0 1 [], [bobNote],
       List.range 2) := by
  exact C5_skipAll [cBob, cBob, cBob] decideSkipThenAll [] [bobNote] 1
    (by decide) (by decide) (by decide)

theorem onConflict_resolved_aux (conflicts : List Conflict) (ow : Bool)
    (dcd : Nat → Option MergeOpt) :
    ∀ (n i : Nat), conflicts.length - i ≤ n →
      ∀ (engine : Engine) (resolved : List Note),
        (onConflict conflicts ow dcd engine i resolved).2.1 = resolved := by
  intro n
  induction n with
  | zero =>
    intro i hi engine resolved
    rw [onConflict]
    split
    · rw [dif_neg (by omega)]
    · rfl
    · rw [dif_neg (by omega)]
  | succ n ih =>
    intro i hi engine resolved
    rw [onConflict]
    split
    · by_cases hg : i < conflicts.length - 1
      · rw [dif_pos hg]
        exact ih (i + 1) (by omega) _ resolved
      · rw [dif_neg hg]
    · rfl
    · by_cases hg : i < conflicts.length - 1
      · rw [dif_pos hg]
        exact ih (i + 1) (by omega) _ resolved
      · rw [dif_neg hg]

theorem onConflict_resolved (conflicts : List Conflict) (ow : Bool)
    (dcd : Nat → Option MergeOpt) (i : Nat) (engine : Engine)
    (resolved : List Note) :
    (onConflict conflicts ow dcd engine i resolved).2.1 = resolved :=
  onConflict_resolved_aux conflicts ow dcd conflicts.length i (by omega)
    engine resolved

theorem onConflict_overwriteAll (conflicts : List Conflict)
    (dcd : Nat → Option MergeOpt) :
    ∀ (n i : Nat), i + n + 1 = conflicts.length →
      ∀ (engine : Engine) (resolved : List Note),
        onConflict conflicts true dcd engine i resolved =
          (commitsSeg conflicts owDecide i (n + 1) engine, resolved,
           List.range' i (n + 1)) := by
  intro n
  induction n with
  | zero =>
    intro i hi engine resolved
    rw [onConflict]
    have hguard : ¬(i < conflicts.length - 1) := by omega
    simp only [if_true]
    rw [dif_neg hguard]
    simp [commitsSeg, owDecide, renameEntry, writeNote, List.range']
  | succ n ih =>
    intro i hi engine resolved
    rw [onConflict]
    have hguard : i < conflicts.length - 1 := by omega
    simp only [if_true]
    rw [dif_pos hguard]
    rw [ih (i + 1) (by omega)]
    simp only [commitsSeg, owDecide, renameEntry, writeNote, List.range'_succ]

/-- C1 (amended): the resolver always returns the accumulated list exactly as
seeded (the original conflicted notes), for overwritten entries as much as for
skipped or undecided ones; the effect of OVERWRITE_LOCAL is visible only in the
engine, which, under overwriteAll, receives an update commit of each
synthesized entry renamed to its original name, in queue order — so the
engine's final state, not the returned list, carries the incoming field values
under the original names. -/
theorem C1_resolver (conflicts : List Conflict) (ow : Bool)
    (dcd : Nat → Option MergeOpt) (engine : Engine) (resolved : List Note)
    (index : Nat) (hidx : index < conflicts.length) :
    ((onConflict conflicts ow dcd engine index resolved).2.1 = resolved) ∧
    onConflict conflicts true dcd engine index resolved =
      (commitsSeg conflicts owDecide index (conflicts.length - index) engine,
       resolved, List.range' index (conflicts.length - index)) := by
  constructor
  · exact onConflict_resolved conflicts ow dcd index engine resolved
  · have hn : index + (conflicts.length - index - 1) + 1 = conflicts.length := by
      omega
    have h := onConflict_overwriteAll conflicts dcd
      (conflicts.length - index - 1) index hn engine resolved
    have h2 : conflicts.length - index - 1 + 1 = conflicts.length - index := by
      omega
    rw [h2] at h
    exact h

/-- Counterexample to C1 as stated: with overwriteAll set and one queued
conflict for bob, the returned list holds the original note with the stale
github value, not the replaced (synthesized) node. -/
theorem C1_counterexample :
    (onConflict [cBob] true (fun _ => none) [] 0 [bobNote]).2.1 = [bobNote] ∧
    bobNote.custom = some { social := some bobOldBag } ∧
    bobOldBag.get SocialKey.github = SVal.str "bob-old" ∧
    (renameEntry cBob).fname = "people.bob" ∧
    (∀ n ∈ (onConflict [cBob] true (fun _ => none) [] 0 [bobNote]).2.1,
      n ≠ renameEntry cBob) := by
  have hres : (onConflict [cBob] true (fun _ => none) [] 0 [bobNote]).2.1 =
      [bobNote] :=
    onConflict_resolved [cBob] true (fun _ => none) 0 [] [bobNote]
  refine ⟨hres, rfl, by decide, by decide, ?_⟩
  rw [hres]
  decide

/-- Witness for C1 at the single-entry bob queue with overwriteAll. -/
theorem C1_resolver_witness :
    ((onConflict [cBob] true (fun _ => none) [] 0 [bobNote]).2.1 = [bobNote]) ∧
    onConflict [cBob] true (fun _ => none) [] 0 [bobNote] =
      (commitsSeg [cBob] owDecide 0 1 [], [bobNote], List.range' 0 1) := by
  refine ⟨(C1_resolver [cBob] true (fun _ => none) [] [bobNote] 0 (by decide)).1,
    ?_⟩
  have h := (C1_resolver [cBob] true (fun _ => none) [] [bobNote] 0 (by decide)).2
  simpa using h

/-! C7: the round trip. Helper lemmas about the planner. -/

theorem lookupFname_destNone (cfg : OrbitConfig) (hdest : cfg.destName = none)
    (fm : Bool) (nn : String) : lookupFname cfg fm nn = peopleFname nn := by
  rcases fm <;> simp [lookupFname, truthy, hdest]

theorem planMember_none (san : String → String) (today : String)
    (cfg : OrbitConfig) (fm : Bool) (e : Engine) (m : OrbitMemberData)
    (hl : lookupNote e (lookupFname cfg fm (cleanName san m)) = none) :
    planMember san today cfg fm e m =
      PlanItem.create (newNote (peopleFname (cleanName san m)) m) := by
  simp [planMember, hl]

theorem planMember_some_noconf (san : String → String) (today : String)
    (cfg : OrbitConfig) (fm : Bool) (e : Engine) (m : OrbitMemberData)
    (n : Note) (hl : lookupNote e (lookupFname cfg fm (cleanName san m)) = some n)
    (hnc : getConflictedData n m = []) :
    planMember san today cfg fm e m = PlanItem.update n m := by
  simp [planMember, hl, hnc]

theorem planMember_eq_create (san : String → String) (today : String)
    (cfg : OrbitConfig) (fm : Bool) (e : Engine) (m : OrbitMemberData) (n : Note)
    (h : planMember san today cfg fm e m = PlanItem.create n) :
    lookupNote e (lookupFname cfg fm (cleanName san m)) = none ∧
    n = newNote (peopleFname (cleanName san m)) m := by
  simp only [planMember] at h
  rcases hl : lookupNote e (lookupFname cfg fm (cleanName san m)) with _ | n0
  · rw [hl] at h
    simp only [PlanItem.create.injEq] at h
    exact ⟨rfl, h.symm⟩
  · rw [hl] at h
    by_cases hc : (getConflictedData n0 m).length > 0 <;> simp [hc] at h

theorem planMember_eq_update (san : String → String) (today : String)
    (cfg : OrbitConfig) (fm : Bool) (e : Engine) (m : OrbitMemberData)
    (n : Note) (mm : OrbitMemberData)
    (h : planMember san today cfg fm e m = PlanItem.update n mm) :
    mm = m ∧ lookupNote e (lookupFname cfg fm (cleanName san m)) = some n ∧
    getConflictedData n m = [] := by
  simp only [planMember] at h
  rcases hl : lookupNote e (lookupFname cfg fm (cleanName san m)) with _ | n0
  · rw [hl] at h
    simp at h
  · rw [hl] at h
    by_cases hc : (getConflictedData n0 m).length > 0
    · simp [hc] at h
    · simp only [hc, if_false, PlanItem.update.injEq] at h
      have hnc : getConflictedData n0 m = [] := by
        rcases hlen : getConflictedData n0 m with _ | ⟨x, xs⟩
        · rfl
        · exact absurd (by simp [hlen]) hc
      obtain ⟨hn0, hmm⟩ := h
      subst hn0
      subst hmm
      exact ⟨rfl, rfl, hnc⟩

theorem planMember_eq_conflict (san : String → String) (today : String)
    (cfg : OrbitConfig) (fm : Bool) (e : Engine) (m : OrbitMemberData)
    (c : Conflict) (h : planMember san today cfg fm e m = PlanItem.conflict c) :
    lookupNote e (lookupFname cfg fm (cleanName san m)) = some c.conflictNote ∧
    c.conflictEntry = newNote (duplicateFname today (cleanName san m)) m := by
  simp only [planMember] at h
  rcases hl : lookupNote e (lookupFname cfg fm (cleanName san m)) with _ | n0
  · rw [hl] at h
    simp at h
  · rw [hl] at h
    by_cases hc : (getConflictedData n0 m).length > 0
    · simp only [hc, if_true, PlanItem.conflict.injEq] at h
      subst h
      exact ⟨rfl, rfl⟩
    · simp [hc] at h

theorem mem_planCreate (san : String → String) (today : String)
    (cfg : OrbitConfig) (fm : Bool) (e : Engine)
    (members : List OrbitMemberData) (n : Note) :
    n ∈ (planAll san today cfg fm e members).create ↔
      ∃ m ∈ members, planMember san today cfg fm e m = PlanItem.create n := by
  simp only [planAll, List.mem_filterMap, List.mem_map]
  constructor
  · rintro ⟨i, ⟨m, hm, rfl⟩, hf⟩
    refine ⟨m, hm, ?_⟩
    rcases hpm : planMember san today cfg fm e m with n0 | ⟨n0, m0⟩ | c0 <;>
      rw [hpm] at hf <;> simp at hf
    rw [hf]
  · rintro ⟨m, hm, hpm⟩
    exact ⟨PlanItem.create n, ⟨m, hm, hpm⟩, rfl⟩

theorem mem_planConflicts (san : String → String) (today : String)
    (cfg : OrbitConfig) (fm : Bool) (e : Engine)
    (members : List OrbitMemberData) (c : Conflict) :
    c ∈ (planAll san today cfg fm e members).conflicts ↔
      ∃ m ∈ members, planMember san today cfg fm e m = PlanItem.conflict c := by
  simp only [planAll, List.mem_filterMap, List.mem_map]
  constructor
  · rintro ⟨i, ⟨m, hm, rfl⟩, hf⟩
    refine ⟨m, hm, ?_⟩
    rcases hpm : planMember san today cfg fm e m with n0 | ⟨n0, m0⟩ | c0 <;>
      rw [hpm] at hf <;> simp at hf
    rw [hf]
  · rintro ⟨m, hm, hpm⟩
    exact ⟨PlanItem.conflict c, ⟨m, hm, hpm⟩, rfl⟩

theorem mem_planUpdates (san : String → String) (today : String)
    (cfg : OrbitConfig) (fm : Bool) (e : Engine)
    (members : List OrbitMemberData) (p : Note × OrbitMemberData) :
    p ∈ (planAll san today cfg fm e members).notesToUpdate ↔
      ∃ m ∈ members,
        planMember san today cfg fm e m = PlanItem.update p.1 p.2 := by
  simp only [planAll, List.mem_filterMap, List.mem_map]
  constructor
  · rintro ⟨i, ⟨m, hm, rfl⟩, hf⟩
    refine ⟨m, hm, ?_⟩
    rcases hpm : planMember san today cfg fm e m with n0 | ⟨n0, m0⟩ | c0 <;>
      rw [hpm] at hf <;> simp at hf
    rw [← hf]
  · rintro ⟨m, hm, hpm⟩
    exact ⟨PlanItem.update p.1 p.2, ⟨m, hm, hpm⟩, rfl⟩

/-! C7: equilibrium lemmas about notes after a run. -/

theorem getSocial_get (m : OrbitMemberData) (k : SocialKey) :
    (getSocialAttributes m).get k = svalOfOpt (incomingAttr m k) := by
  cases k <;> rfl

theorem calm_svalOfOpt (inc : Option String) : calmVal (svalOfOpt inc) inc := by
  rcases inc with _ | s
  · exact ⟨fun t ht => by simp [svalOfOpt] at ht, fun _ => rfl⟩
  · refine ⟨fun t ht => ?_, fun h => by simp [svalOfOpt] at h⟩
    simp only [svalOfOpt, SVal.str.injEq] at ht
    rw [ht]

theorem calm_newNote (f : String) (m : OrbitMemberData) :
    calmNote (newNote f m) m := by
  refine ⟨{ social := some (getSocialAttributes m) }, rfl, ?_⟩
  intro k
  simp only [Option.getD_some, getSocial_get]
  exact calm_svalOfOpt (incomingAttr m k)

theorem svalOfOpt_eq_str (inc : Option String) (s : String)
    (h : svalOfOpt inc = SVal.str s) : inc = some s := by
  rcases inc with _ | t <;> simp [svalOfOpt] at h ⊢
  exact h

theorem noconf_str (n : Note) (m : OrbitMemberData) (c : Custom)
    (bag : SocialBag) (hc : n.custom = some c) (hs : c.social = some bag)
    (hnc : getConflictedData n m = []) (k : SocialKey) (s : String)
    (hk : bag.get k = SVal.str s) : incomingAttr m k = some s := by
  have hfilter := hnc
  simp only [getConflictedData, hc, hs] at hfilter
  have hpred := (List.filter_eq_nil_iff.mp hfilter) k (mem_socialKeys k)
  simp only [hk, Bool.and_eq_true, Bool.not_eq_true',
    decide_eq_false_iff_not] at hpred
  have hsv : svalOfOpt (incomingAttr m k) = SVal.str s := by
    by_contra hne
    exact hpred ⟨⟨by simp, by simp⟩, hne⟩
  exact svalOfOpt_eq_str _ s hsv

theorem updateNoteData_spec (n : Note) (m : OrbitMemberData) (n' : Note)
    (b : Bool) (hu : updateNoteData n m = some (n', b)) :
    ∃ c bag', n.custom = some c ∧
      n' = { n with custom := some { c with social := some bag' } } ∧
      (∀ k, bag'.get k =
        adoptVal ((c.social.getD emptyBag).get k) (incomingAttr m k)) ∧
      b = socialKeys.any (fun k =>
        adoptCond ((c.social.getD emptyBag).get k) (incomingAttr m k)) := by
  rcases hc : n.custom with _ | c
  · rw [updateNoteData, hc] at hu
    simp at hu
  · rw [updateNoteData, hc] at hu
    obtain ⟨h1, _h2, h3⟩ :=
      updateFold_spec m socialKeys socialKeys_nodup (c.social.getD emptyBag) false
    simp only [Option.some.injEq, Prod.mk.injEq] at hu
    obtain ⟨hn', hb⟩ := hu
    refine ⟨c, (socialKeys.foldl (updateStep m) (c.social.getD emptyBag, false)).1,
      rfl, hn'.symm, ?_, ?_⟩
    · intro k
      exact h1 k (mem_socialKeys k)
    · rw [← hb, h3]
      simp

theorem calmVal_adoptVal (ex : SVal) (inc : Option String)
    (hstr : ∀ s, ex = SVal.str s → inc = some s) :
    calmVal (adoptVal ex inc) inc := by
  rcases ex with _ | _ | s
  · exact ⟨fun s h => by simp [adoptVal] at h, fun h => by simp [adoptVal] at h⟩
  · rcases inc with _ | t
    · exact ⟨fun s h => by simp [adoptVal] at h, fun _ => rfl⟩
    · constructor
      · intro s h
        simp only [adoptVal] at h
        injection h with h2
        rw [h2]
      · intro h
        simp [adoptVal] at h
  · have hred : adoptVal (SVal.str s) inc = SVal.str s := by
      rcases inc with _ | t <;> rfl
    rw [hred]
    constructor
    · intro t h
      injection h with h2
      subst h2
      exact hstr s rfl
    · intro h
      simp at h

theorem calmVal_of_noAdopt (ex : SVal) (inc : Option String)
    (hstr : ∀ s, ex = SVal.str s → inc = some s)
    (hna : adoptCond ex inc = false) : calmVal ex inc := by
  rcases ex with _ | _ | s
  · exact ⟨fun s h => by simp at h, fun h => by simp at h⟩
  · rcases inc with _ | t
    · exact ⟨fun s h => by simp at h, fun _ => rfl⟩
    · simp [adoptCond] at hna
  · refine ⟨?_, fun h => by simp at h⟩
    intro t h
    injection h with h2
    subst h2
    exact hstr s rfl

theorem update_calm (n : Note) (m : OrbitMemberData) (n' : Note) (b : Bool)
    (hnc : getConflictedData n m = [])
    (hu : updateNoteData n m = some (n', b)) :
    calmNote n' m ∧ (b = false → calmNote n m) := by
  obtain ⟨c, bag', hc, hn', hget, hb⟩ := updateNoteData_spec n m n' b hu
  have hstr : ∀ k s, (c.social.getD emptyBag).get k = SVal.str s →
      incomingAttr m k = some s := by
    intro k s hk
    rcases hs : c.social with _ | bag
    · rw [hs, Option.getD_none] at hk
      cases k <;> simp [emptyBag, SocialBag.get] at hk
    · rw [hs, Option.getD_some] at hk
      exact noconf_str n m c bag hc hs hnc k s hk
  constructor
  · refine ⟨{ c with social := some bag' }, by rw [hn'], ?_⟩
    intro k
    have hrd : (({ c with social := some bag' } : Custom).social.getD emptyBag) =
        bag' := rfl
    rw [hrd, hget k]
    exact calmVal_adoptVal _ _ (hstr k)
  · intro hbf
    have hnoad : ∀ k,
        adoptCond ((c.social.getD emptyBag).get k) (incomingAttr m k) = false := by
      intro k
      rcases hcond : adoptCond ((c.social.getD emptyBag).get k) (incomingAttr m k)
      · rfl
      · have hx : socialKeys.any (fun k =>
            adoptCond ((c.social.getD emptyBag).get k) (incomingAttr m k)) = true :=
          List.any_eq_true.mpr ⟨k, mem_socialKeys k, hcond⟩
        rw [hbf] at hb
        rw [← hb] at hx
        cases hx
    exact ⟨c, hc, fun k => calmVal_of_noAdopt _ _ (hstr k) (hnoad k)⟩

theorem calm_noConflict (n : Note) (m : OrbitMemberData)
    (h : calmNote n m) : getConflictedData n m = [] := by
  obtain ⟨c, hc, hcalm⟩ := h
  rcases hs : c.social with _ | bag
  · simp [getConflictedData, hc, hs]
  · simp only [getConflictedData, hc, hs]
    apply List.filter_eq_nil_iff.mpr
    intro k _
    have hck := hcalm k
    rw [hs, Option.getD_some] at hck
    simp only [Bool.and_eq_true, Bool.not_eq_true', decide_eq_false_iff_not]
    rintro ⟨⟨hnull, hundef⟩, hne⟩
    rcases hv : bag.get k with _ | _ | s
    · exact hundef hv
    · exact hnull hv
    · rw [hv] at hck
      rw [hck.1 s rfl] at hne
      exact hne (by rw [hv]; rfl)

theorem calm_noUpdate (n : Note) (m : OrbitMemberData) (h : calmNote n m) :
    ∃ n', updateNoteData n m = some (n', false) := by
  obtain ⟨c, hc, hcalm⟩ := h
  obtain ⟨h1, _h2, h3⟩ :=
    updateFold_spec m socialKeys socialKeys_nodup (c.social.getD emptyBag) false
  have hb : (socialKeys.foldl (updateStep m) (c.social.getD emptyBag, false)).2 =
      false := by
    rw [h3]
    simp only [Bool.false_or]
    apply List.any_eq_false.mpr
    intro k _
    have hck := hcalm k
    rcases hv : (c.social.getD emptyBag).get k with _ | _ | s
    · simp [adoptCond]
    · rw [hv] at hck
      rw [hck.2 rfl]
      simp [adoptCond]
    · simp [adoptCond]
  have hdef : updateNoteData n m = some ({ n with custom := some { c with
      social :=
        some (socialKeys.foldl (updateStep m) (c.social.getD emptyBag, false)).1 } },
      (socialKeys.foldl (updateStep m) (c.social.getD emptyBag, false)).2) := by
    rw [updateNoteData, hc]
  rw [hdef, hb]
  exact ⟨_, rfl⟩

/-! C7: characterizing the writes a run performs. -/

theorem updateNoteData_fname (n : Note) (m : OrbitMemberData) (n' : Note)
    (b : Bool) (hu : updateNoteData n m = some (n', b)) : n'.fname = n.fname := by
  obtain ⟨c, bag', _hc, hn', _, _⟩ := updateNoteData_spec n m n' b hu
  rw [hn']

theorem calmNote_of_custom (n n2 : Note) (m : OrbitMemberData)
    (h : n.custom = n2.custom) (h2 : calmNote n2 m) : calmNote n m := by
  obtain ⟨c, hc, hcalm⟩ := h2
  exact ⟨c, by rw [h, hc], hcalm⟩

theorem expectedWrites_fname (san : String → String) (today : String)
    (cfg : OrbitConfig) (fm : Bool) (e : Engine) (m : OrbitMemberData)
    (hdest : cfg.destName = none) (w : Note)
    (hw : w ∈ expectedWrites san today cfg fm e m) :
    w.fname = memberFname san m := by
  unfold expectedWrites at hw
  rcases hpm : planMember san today cfg fm e m with n0 | ⟨n0, m0⟩ | c0 <;>
    simp only [hpm] at hw
  · simp only [List.mem_singleton] at hw
    obtain ⟨_, hn⟩ := planMember_eq_create san today cfg fm e m n0 hpm
    rw [hw, hn]
    rfl
  · rcases hu : updateNoteData n0 m0 with _ | ⟨n', b⟩
    · rw [hu] at hw
      simp at hw
    · rcases b
      · rw [hu] at hw
        simp at hw
      · rw [hu] at hw
        simp only [List.mem_singleton] at hw
        obtain ⟨hm0, hl, _⟩ := planMember_eq_update san today cfg fm e m n0 m0 hpm
        rw [hw, updateNoteData_fname n0 m0 n' true hu,
          lookupNote_fname e _ n0 hl, lookupFname_destNone cfg hdest]
        rfl
  · simp only [List.mem_singleton] at hw
    obtain ⟨hl, _⟩ := planMember_eq_conflict san today cfg fm e m c0 hpm
    rw [hw]
    show c0.conflictNote.fname = memberFname san m
    rw [lookupNote_fname e _ c0.conflictNote hl, lookupFname_destNone cfg hdest]
    rfl

theorem expectedWrites_calm (san : String → String) (today : String)
    (cfg : OrbitConfig) (fm : Bool) (e : Engine) (m : OrbitMemberData)
    (w : Note) (hw : w ∈ expectedWrites san today cfg fm e m) :
    calmNote w m := by
  unfold expectedWrites at hw
  rcases hpm : planMember san today cfg fm e m with n0 | ⟨n0, m0⟩ | c0 <;>
    simp only [hpm] at hw
  · simp only [List.mem_singleton] at hw
    obtain ⟨_, hn⟩ := planMember_eq_create san today cfg fm e m n0 hpm
    rw [hw, hn]
    exact calm_newNote _ m
  · rcases hu : updateNoteData n0 m0 with _ | ⟨n', b⟩
    · rw [hu] at hw
      simp at hw
    · rcases b
      · rw [hu] at hw
        simp at hw
      · rw [hu] at hw
        simp only [List.mem_singleton] at hw
        obtain ⟨hm0, _hl, hnc⟩ := planMember_eq_update san today cfg fm e m n0 m0 hpm
        rw [hm0] at hu
        rw [hw]
        exact (update_calm n0 m n' true hnc hu).1
  · simp only [List.mem_singleton] at hw
    obtain ⟨_, hentry⟩ := planMember_eq_conflict san today cfg fm e m c0 hpm
    rw [hw]
    apply calmNote_of_custom _ (newNote (duplicateFname today (cleanName san m)) m)
    · show c0.conflictEntry.custom = _
      rw [hentry]
    · exact calm_newNote _ m

theorem applyUpdates_spec (l : List (Note × OrbitMemberData)) :
    ∀ (e e' : Engine) (cnt : Nat),
      applyUpdates e l = some (e', cnt) →
      ∃ ws, e' = ws ++ e ∧
        (∀ w ∈ ws, ∃ p ∈ l, ∃ n',
          updateNoteData p.1 p.2 = some (n', true) ∧ w = n') ∧
        (∀ p ∈ l, ∃ n' b, updateNoteData p.1 p.2 = some (n', b) ∧
          (b = true → n' ∈ ws)) := by
  induction l with
  | nil =>
    intro e e' cnt h
    simp only [applyUpdates, Option.some.injEq, Prod.mk.injEq] at h
    refine ⟨[], by simp [h.1.symm], by simp, by simp⟩
  | cons p rest ih =>
    intro e e' cnt h
    rcases p with ⟨n, m⟩
    rw [applyUpdates] at h
    rcases hu : updateNoteData n m with _ | ⟨n0, b0⟩
    · rw [hu] at h
      simp at h
    · rw [hu] at h
      dsimp only at h
      rcases happ : applyUpdates (if b0 then writeNote n0 e else e) rest with
        _ | ⟨e2, cnt2⟩
      · rw [happ] at h
        simp at h
      · rw [happ] at h
        simp only [Option.some.injEq, Prod.mk.injEq] at h
        obtain ⟨he2, _hcnt⟩ := h
        obtain ⟨ws', hws', hfwd, hbwd⟩ := ih _ _ _ happ
        rcases b0
        · refine ⟨ws', by rw [← he2, hws']; simp, ?_, ?_⟩
          · intro w hw
            obtain ⟨q, hq, n', hn', hwn'⟩ := hfwd w hw
            exact ⟨q, List.mem_cons_of_mem _ hq, n', hn', hwn'⟩
          · intro q hq
            rcases List.mem_cons.mp hq with rfl | hq'
            · exact ⟨n0, false, hu, fun hfalse => by cases hfalse⟩
            · exact hbwd q hq'
        · refine ⟨ws' ++ [n0], ?_, ?_, ?_⟩
          · rw [← he2, hws']
            simp [writeNote]
          · intro w hw
            rcases List.mem_append.mp hw with hw' | hw'
            · obtain ⟨q, hq, n', hn', hwn'⟩ := hfwd w hw'
              exact ⟨q, List.mem_cons_of_mem _ hq, n', hn', hwn'⟩
            · refine ⟨(n, m), List.mem_cons_self _ _, n0, hu, ?_⟩
              simpa using hw'
          · intro q hq
            rcases List.mem_cons.mp hq with rfl | hq'
            · exact ⟨n0, true, hu, fun _ => by simp⟩
            · obtain ⟨n', b, hn', hmem⟩ := hbwd q hq'
              exact ⟨n', b, hn', fun hb => List.mem_append_left _ (hmem hb)⟩

theorem applyUpdates_noop (l : List (Note × OrbitMemberData))
    (hno : ∀ p ∈ l, ∃ n', updateNoteData p.1 p.2 = some (n', false)) :
    ∀ e, applyUpdates e l = some (e, 0) := by
  induction l with
  | nil => intro e; rfl
  | cons p rest ih =>
    intro e
    rcases p with ⟨n, m⟩
    obtain ⟨n', hn'⟩ := hno (n, m) (List.mem_cons_self _ _)
    rw [applyUpdates, hn']
    dsimp only
    rw [if_neg (by simp)]
    rw [ih (fun q hq => hno q (List.mem_cons_of_mem _ hq)) e]
    simp

theorem commitsSeg_ow (conflicts : List Conflict) :
    ∀ (n i : Nat), i + n = conflicts.length → ∀ e,
      commitsSeg conflicts owDecide i n e =
        ((conflicts.drop i).map renameEntry).reverse ++ e := by
  intro n
  induction n with
  | zero =>
    intro i hi e
    have : i = conflicts.length := by omega
    subst this
    simp [commitsSeg, List.drop_length]
  | succ n ih =>
    intro i hi e
    have hix : i < conflicts.length := by omega
    rw [commitsSeg]
    simp only [owDecide]
    rw [ih (i + 1) (by omega)]
    rw [List.getD_eq_getElem conflicts default hix]
    rw [List.drop_eq_getElem_cons hix]
    rw [List.map_cons, List.reverse_cons, List.append_assoc]
    rfl

theorem expectedWrites_subsingleton (san : String → String) (today : String)
    (cfg : OrbitConfig) (fm : Bool) (e : Engine) (m : OrbitMemberData) :
    ∀ w ∈ expectedWrites san today cfg fm e m,
      ∀ w' ∈ expectedWrites san today cfg fm e m, w = w' := by
  intro w hw w' hw'
  rcases hpm : planMember san today cfg fm e m with n0 | ⟨n0, m0⟩ | c0 <;>
    simp only [expectedWrites, hpm] at hw hw'
  · simp at hw hw'
    rw [hw, hw']
  · rcases hu : updateNoteData n0 m0 with _ | ⟨n', b⟩ <;> rw [hu] at hw hw'
    · simp at hw
    · rcases b
      · simp at hw
      · simp at hw hw'
        rw [hw, hw']
  · simp at hw hw'
    rw [hw, hw']

theorem plant_writes (san : String → String) (today : String) (cfg : OrbitConfig)
    (fm : Bool) (dcd : Nat → Option MergeOpt) (engine0 : Engine)
    (members : List OrbitMemberData) (r1 : RunResult)
    (hover : cfg.overwriteAll = true)
    (h1 : plant san today cfg fm dcd engine0 members = some r1) :
    ∃ ws : List Note, r1.engine = ws ++ engine0 ∧
      (∀ w ∈ ws, ∃ m ∈ members, w ∈ expectedWrites san today cfg fm engine0 m) ∧
      (∀ m ∈ members, ∀ w ∈ expectedWrites san today cfg fm engine0 m, w ∈ ws) ∧
      (∀ p ∈ (planAll san today cfg fm engine0 members).notesToUpdate,
        ∃ n' b, updateNoteData p.1 p.2 = some (n', b)) := by
  rw [plant] at h1
  rcases happ : applyUpdates engine0
      (planAll san today cfg fm engine0 members).notesToUpdate with _ | ⟨e1, cnt⟩
  · rw [happ] at h1
    simp at h1
  · rw [happ] at h1
    dsimp only at h1
    simp only [Option.some.injEq] at h1
    subst h1
    obtain ⟨uws, hu1, hufwd, hubwd⟩ :=
      applyUpdates_spec (planAll san today cfg fm engine0 members).notesToUpdate
        engine0 e1 cnt happ
    refine ⟨((planAll san today cfg fm engine0 members).conflicts.map
        renameEntry).reverse ++ (planAll san today cfg fm engine0 members).create
        ++ uws, ?_, ?_, ?_, ?_⟩
    · show (if (planAll san today cfg fm engine0 members).conflicts.length > 0 then
          _ else _ : Engine × List Note).1 = _
      by_cases hc : (planAll san today cfg fm engine0 members).conflicts.length > 0
      · rw [if_pos hc]
        have hn1 : 0 + ((planAll san today cfg fm engine0 members).conflicts.length
            - 1) + 1 = (planAll san today cfg fm engine0 members).conflicts.length := by
          omega
        rw [hover]
        show (onConflict (planAll san today cfg fm engine0 members).conflicts true
          dcd (bulkAddNotes (planAll san today cfg fm engine0 members).create e1) 0
          _).1 = _
        rw [onConflict_overwriteAll _ dcd _ 0 hn1]
        show commitsSeg _ owDecide 0 _ _ = _
        have hseg := commitsSeg_ow (planAll san today cfg fm engine0 members).conflicts
          ((planAll san today cfg fm engine0 members).conflicts.length - 1 + 1) 0
          (by omega) (bulkAddNotes (planAll san today cfg fm engine0 members).create e1)
        rw [hseg]
        rw [hu1]
        simp [bulkAddNotes, List.append_assoc]
      · rw [if_neg hc]
        have hnil : (planAll san today cfg fm engine0 members).conflicts = [] := by
          rcases hx : (planAll san today cfg fm engine0 members).conflicts with _ | ⟨a, b⟩
          · rfl
          · rw [hx] at hc
            simp at hc
        rw [hnil]
        show bulkAddNotes (planAll san today cfg fm engine0 members).create e1 = _
        rw [hu1]
        simp [bulkAddNotes, List.append_assoc]
    · intro w hw
      rcases List.mem_append.mp hw with hw1 | hw2
      · rcases List.mem_append.mp hw1 with hwc | hwcr
        · rw [List.mem_reverse] at hwc
          obtain ⟨c, hcmem, hrc⟩ := List.mem_map.mp hwc
          obtain ⟨m, hm, hpm⟩ :=
            (mem_planConflicts san today cfg fm engine0 members c).mp hcmem
          refine ⟨m, hm, ?_⟩
          simp only [expectedWrites, hpm]
          simp [hrc.symm]
        · obtain ⟨m, hm, hpm⟩ :=
            (mem_planCreate san today cfg fm engine0 members w).mp hwcr
          refine ⟨m, hm, ?_⟩
          simp only [expectedWrites, hpm]
          simp
      · obtain ⟨p, hp, n', hn', hwn'⟩ := hufwd w hw2
        obtain ⟨m, hm, hpm⟩ :=
          (mem_planUpdates san today cfg fm engine0 members p).mp hp
        refine ⟨m, hm, ?_⟩
        simp only [expectedWrites, hpm, hn']
        simp [hwn']
    · intro m hm w hw
      rcases hpm : planMember san today cfg fm engine0 m with n0 | ⟨n0, m0⟩ | c0 <;>
        simp only [expectedWrites, hpm] at hw
      · simp only [List.mem_singleton] at hw
        apply List.mem_append_left
        apply List.mem_append_right
        rw [hw]
        exact (mem_planCreate san today cfg fm engine0 members n0).mpr ⟨m, hm, hpm⟩
      · rcases hu : updateNoteData n0 m0 with _ | ⟨n', b⟩ <;> rw [hu] at hw
        · simp at hw
        · rcases b
          · simp at hw
          · simp only [List.mem_singleton] at hw
            apply List.mem_append_right
            have hpmem : (n0, m0) ∈
                (planAll san today cfg fm engine0 members).notesToUpdate :=
              (mem_planUpdates san today cfg fm engine0 members (n0, m0)).mpr
                ⟨m, hm, hpm⟩
            obtain ⟨n'', b'', hn'', hmem⟩ := hubwd (n0, m0) hpmem
            have : n'' = n' ∧ b'' = true := by
              rw [hu] at hn''
              simp only [Option.some.injEq, Prod.mk.injEq] at hn''
              exact ⟨hn''.1.symm, hn''.2.symm⟩
            rw [hw, ← this.1]
            exact hmem this.2
      · simp only [List.mem_singleton] at hw
        apply List.mem_append_left
        apply List.mem_append_left
        rw [List.mem_reverse, hw]
        exact List.mem_map.mpr ⟨c0, (mem_planConflicts san today cfg fm engine0
          members c0).mpr ⟨m, hm, hpm⟩, rfl⟩
    · intro p hp
      obtain ⟨n', b, hn', _⟩ := hubwd p hp
      exact ⟨n', b, hn'⟩

theorem plant_lookup (san : String → String) (today : String) (cfg : OrbitConfig)
    (fm : Bool) (dcd : Nat → Option MergeOpt) (engine0 : Engine)
    (members : List OrbitMemberData) (r1 : RunResult)
    (hdest : cfg.destName = none) (hover : cfg.overwriteAll = true)
    (hnd : (members.map (memberFname san)).Nodup)
    (h1 : plant san today cfg fm dcd engine0 members = some r1) :
    ∀ m ∈ members, ∃ n, lookupNote r1.engine (memberFname san m) = some n ∧
      calmNote n m := by
  obtain ⟨ws, heng, hfwd, hbwd, hupdall⟩ :=
    plant_writes san today cfg fm dcd engine0 members r1 hover h1
  intro m hm
  have hinj : ∀ m' ∈ members, memberFname san m' = memberFname san m → m' = m :=
    fun m' hm' hf => List.inj_on_of_nodup_map hnd hm' hm hf
  have key : ∀ w ∈ expectedWrites san today cfg fm engine0 m,
      lookupNote r1.engine (memberFname san m) = some w := by
    intro w hw
    rw [heng]
    apply lookupNote_append_unique ws engine0 _ w (hbwd m hm w hw)
      (expectedWrites_fname san today cfg fm engine0 m hdest w hw)
    intro w' hw' hfw'
    obtain ⟨m', hm', hwm'⟩ := hfwd w' hw'
    have hfm' := expectedWrites_fname san today cfg fm engine0 m' hdest w' hwm'
    have hmm : m' = m := hinj m' hm' (by rw [← hfm', hfw'])
    subst hmm
    exact expectedWrites_subsingleton san today cfg fm engine0 m' w' hwm' w hw
  have keyEmpty : expectedWrites san today cfg fm engine0 m = [] →
      lookupNote r1.engine (memberFname san m) =
        lookupNote engine0 (memberFname san m) := by
    intro hempty
    rw [heng]
    apply lookupNote_append_none
    intro w' hw' hfeq
    obtain ⟨m', hm', hwm'⟩ := hfwd w' hw'
    have hfm' := expectedWrites_fname san today cfg fm engine0 m' hdest w' hwm'
    have hmm : m' = m := hinj m' hm' (by rw [← hfm', hfeq])
    subst hmm
    rw [hempty] at hwm'
    exact absurd hwm' (List.not_mem_nil _)
  rcases hpm : planMember san today cfg fm engine0 m with n0 | ⟨n0, m0⟩ | c0
  · have hwmem : n0 ∈ expectedWrites san today cfg fm engine0 m := by
      simp [expectedWrites, hpm]
    exact ⟨n0, key n0 hwmem,
      expectedWrites_calm san today cfg fm engine0 m n0 hwmem⟩
  · obtain ⟨hm0, hl, hnc⟩ := planMember_eq_update san today cfg fm engine0 m n0 m0 hpm
    rw [hm0] at hpm
    have hpmem : (n0, m) ∈ (planAll san today cfg fm engine0 members).notesToUpdate :=
      (mem_planUpdates san today cfg fm engine0 members (n0, m)).mpr ⟨m, hm, hpm⟩
    obtain ⟨n', b, hu⟩ := hupdall (n0, m) hpmem
    rcases b
    · have hempty : expectedWrites san today cfg fm engine0 m = [] := by
        simp [expectedWrites, hpm, hu]
      have hl0 : lookupNote engine0 (memberFname san m) = some n0 := by
        rw [show memberFname san m = lookupFname cfg fm (cleanName san m) from
          (lookupFname_destNone cfg hdest fm (cleanName san m)).symm]
        exact hl
      exact ⟨n0, by rw [keyEmpty hempty]; exact hl0,
        (update_calm n0 m n' false hnc hu).2 rfl⟩
    · have hwmem : n' ∈ expectedWrites san today cfg fm engine0 m := by
        simp [expectedWrites, hpm, hu]
      exact ⟨n', key n' hwmem,
        expectedWrites_calm san today cfg fm engine0 m n' hwmem⟩
  · have hwmem : renameEntry c0 ∈ expectedWrites san today cfg fm engine0 m := by
      simp [expectedWrites, hpm]
    exact ⟨renameEntry c0, key _ hwmem,
      expectedWrites_calm san today cfg fm engine0 m _ hwmem⟩

/-- C7 (amended): provided the run uses no destName override, the records
resolve to pairwise-distinct document names, and the first run is made with
overwriteAll set (so every first-run conflict is overwritten), running the
pipeline a second time on the identical record set over the state produced by
the first run yields zero conflict entries, issues zero update commits, and
leaves the engine untouched — whatever decision stream, date or lookup mode
the second run uses. -/
theorem C7_roundTrip (san : String → String) (today today2 : String)
    (cfg : OrbitConfig) (fastMode fastMode2 : Bool)
    (dcd dcd2 : Nat → Option MergeOpt) (engine0 : Engine)
    (members : List OrbitMemberData) (r1 : RunResult)
    (hdest : cfg.destName = none) (hover : cfg.overwriteAll = true)
    (hnd : (members.map (memberFname san)).Nodup)
    (h1 : plant san today cfg fastMode dcd engine0 members = some r1) :
    ∃ r2, plant san today2 cfg fastMode2 dcd2 r1.engine members = some r2 ∧
      r2.conflictCount = 0 ∧ r2.updateCommits = 0 ∧ r2.engine = r1.engine := by
  have hlook := plant_lookup san today cfg fastMode dcd engine0 members r1
    hdest hover hnd h1
  have hpm2 : ∀ m ∈ members, ∃ n,
      planMember san today2 cfg fastMode2 r1.engine m = PlanItem.update n m ∧
      calmNote n m := by
    intro m hm
    obtain ⟨n, hl, hcalm⟩ := hlook m hm
    refine ⟨n, ?_, hcalm⟩
    apply planMember_some_noconf
    · rw [lookupFname_destNone cfg hdest]
      exact hl
    · exact calm_noConflict n m hcalm
  have hcre : (planAll san today2 cfg fastMode2 r1.engine members).create = [] := by
    apply List.eq_nil_iff_forall_not_mem.mpr
    intro n hn
    obtain ⟨m, hm, hpmc⟩ :=
      (mem_planCreate san today2 cfg fastMode2 r1.engine members n).mp hn
    obtain ⟨n2, hpmu, _⟩ := hpm2 m hm
    rw [hpmu] at hpmc
    cases hpmc
  have hconf : (planAll san today2 cfg fastMode2 r1.engine members).conflicts = [] := by
    apply List.eq_nil_iff_forall_not_mem.mpr
    intro c hc
    obtain ⟨m, hm, hpmc⟩ :=
      (mem_planConflicts san today2 cfg fastMode2 r1.engine members c).mp hc
    obtain ⟨n2, hpmu, _⟩ := hpm2 m hm
    rw [hpmu] at hpmc
    cases hpmc
  have hupd : applyUpdates r1.engine
      (planAll san today2 cfg fastMode2 r1.engine members).notesToUpdate =
      some (r1.engine, 0) := by
    apply applyUpdates_noop
    intro p hp
    obtain ⟨m, hm, hpmu⟩ :=
      (mem_planUpdates san today2 cfg fastMode2 r1.engine members p).mp hp
    obtain ⟨n2, hpmu2, hcalm⟩ := hpm2 m hm
    rw [hpmu2] at hpmu
    simp only [PlanItem.update.injEq] at hpmu
    obtain ⟨hp1, hp2⟩ := hpmu
    obtain ⟨n', hn'⟩ := calm_noUpdate n2 m hcalm
    rw [← hp1, ← hp2]
    exact ⟨n', hn'⟩
  have hplant2 : plant san today2 cfg fastMode2 dcd2 r1.engine members =
      some { engine := r1.engine, importedNotes := [], conflictCount := 0,
             updateCommits := 0 } := by
    rw [plant, hupd]
    dsimp only
    rw [hcre, hconf]
    simp [bulkAddNotes]
  exact ⟨_, hplant2, rfl, rfl, rfl⟩

/-- Counterexample to C7 as stated: when the single first-run conflict is
resolved with SKIP, the second run on the resulting state detects the very same
conflict again (one conflict entry, not zero). -/
theorem C7_counterexample :
    ∃ r1 r2,
      plant (fun s => s) "2026.10.12" cfgSkip false (fun _ => some MergeOpt.skip)
        [bobNote] [mBob] = some r1 ∧
      plant (fun s => s) "2026.10.12" cfgSkip false (fun _ => some MergeOpt.skip)
        r1.engine [mBob] = some r2 ∧
      r2.conflictCount = 1 := by
  have hplan : planAll (fun s => s) "2026.10.12" cfgSkip false [bobNote] [mBob] =
      { create := [], conflicts := [cBob], notesToUpdate := [] } := by decide
  have hoc : onConflict [cBob] cfgSkip.overwriteAll (fun _ => some MergeOpt.skip)
      [bobNote] 0 [cBob.conflictNote] = ([bobNote], [bobNote], [0]) := by
    rw [onConflict]
    norm_num [cfgSkip, cBob]
  have hplant : plant (fun s => s) "2026.10.12" cfgSkip false
      (fun _ => some MergeOpt.skip) [bobNote] [mBob] =
      some { engine := [bobNote], importedNotes := [bobNote], conflictCount := 1,
             updateCommits := 0 } := by
    rw [plant, hplan]
    dsimp only
    rw [show (applyUpdates [bobNote] [] : Option (Engine × Nat)) =
      some ([bobNote], 0) from rfl]
    dsimp only
    rw [show bulkAddNotes [] [bobNote] = [bobNote] from rfl]
    simp [hoc]
  exact ⟨_, _, hplant, hplant, rfl⟩

/-- Witness for C7: a fresh single-member run under overwriteAll followed by an
identical second run, which performs no writes, no conflicts, no commits. -/
theorem C7_roundTrip_witness :
    ∃ r2, plant (fun s => s) "d2" cfgOw true (fun _ => none) r1Bob.engine [mBob] =
        some r2 ∧
      r2.conflictCount = 0 ∧ r2.updateCommits = 0 ∧ r2.engine = r1Bob.engine := by
  exact C7_roundTrip (fun s => s) "d1" "d2" cfgOw false true (fun _ => none)
    (fun _ => none) [] [mBob] r1Bob rfl rfl (by decide) (by decide)

end Orbit
